import Mathlib

set_option maxRecDepth 100000

/-!
Verification of the Slack thread-extraction scripts (src/test.py and src/app.py)
against their natural-language specification.

Text is modelled as `List Char`. Each definition is a shallow embedding of the
Python function of the same (snake_case) name; network I/O is modelled by
passing the remote endpoint as a function from request parameters to an
optional response page, and `random.uniform(0, 1)` jitter is modelled by an
explicit function from the attempt index to a rational number. Python
operations that can raise are modelled with `Option` (a `none` result models a
raised exception). Loops whose bound is not syntactically evident are given an
explicit fuel argument; fuel exhaustion is unreachable for the instantiations
used in the theorems below.
-/

/-! ### Character classes -/

/-- The control characters removed by `clean_text` in test.py line 45:
the regex class `\x00-\x08 \x0b-\x0c \x0e-\x1f \x7f`. -/
def isCtrlChar (c : Char) : Bool :=
  c.toNat ≤ 8 || c.toNat = 11 || c.toNat = 12 ||
  (14 ≤ c.toNat && c.toNat ≤ 31) || c.toNat = 127

/-- The characters Python `str.split()` / `str.strip()` treat as whitespace
(code points for which `str.isspace()` holds). -/
def isPySpace (c : Char) : Bool :=
  c.toNat = 9 || c.toNat = 10 || c.toNat = 11 || c.toNat = 12 || c.toNat = 13 ||
  c.toNat = 28 || c.toNat = 29 || c.toNat = 30 || c.toNat = 31 || c.toNat = 32 ||
  c.toNat = 133 || c.toNat = 160 || c.toNat = 5760 ||
  (8192 ≤ c.toNat && c.toNat ≤ 8202) || c.toNat = 8232 || c.toNat = 8233 ||
  c.toNat = 8239 || c.toNat = 8287 || c.toNat = 12288

/-- The character class `[A-Z0-9]` used by the mention-token regexes. -/
def isIdChar (c : Char) : Bool :=
  (65 ≤ c.toNat && c.toNat ≤ 90) || (48 ≤ c.toNat && c.toNat ≤ 57)

/-! ### clean_text building blocks (test.py lines 40-48) -/

/-- `re.sub(r'[\x00-\x08\x0b-\x0c\x0e-\x1f\x7f]', '', text)`:
delete every control character. -/
def stripControl (l : List Char) : List Char :=
  l.filter (fun c => !isCtrlChar c)

/-- Worker for `str.split()`: accumulate the current word (reversed) and cut
at every run of whitespace, discarding empty words. -/
def splitWsGo : List Char → List Char → List (List Char)
  | [], acc => if acc = [] then [] else [acc.reverse]
  | c :: cs, acc =>
      if isPySpace c then
        if acc = [] then splitWsGo cs [] else acc.reverse :: splitWsGo cs []
      else splitWsGo cs (c :: acc)

/-- Python `text.split()` (split on whitespace runs, no empty words). -/
def splitWs (l : List Char) : List (List Char) := splitWsGo l []

/-- Python `' '.join(words)`. -/
def joinSpace : List (List Char) → List Char
  | [] => []
  | [w] => w
  | w :: w2 :: ws => w ++ ' ' :: joinSpace (w2 :: ws)

/-- Python `text.strip()`: drop whitespace from both ends. -/
def pyStrip (l : List Char) : List Char :=
  ((l.dropWhile isPySpace).reverse.dropWhile isPySpace).reverse

/-- `' '.join(text.split())`: collapse all whitespace runs to single spaces. -/
def collapseWs (l : List Char) : List Char := joinSpace (splitWs l)

/-- test.py `clean_text` (lines 40-48): empty guard, remove control
characters, normalize whitespace, strip. -/
def clean_text (l : List Char) : List Char :=
  if l = [] then [] else pyStrip (joinSpace (splitWs (stripControl l)))

/-! ### remove_hyperlink (test.py lines 51-53) -/

/-- After the literal `<https:` has matched, the lazy `.*?>` matches up to the
first `>` with no newline in between; returns the remainder after that `>`. -/
def findGt : List Char → Option (List Char)
  | [] => none
  | c :: cs => if c = '>' then some cs else if c = Char.ofNat 10 then none else findGt cs

/-- `startsWithL l p` holds when `p` is an initial segment of `l`. -/
def startsWithL : List Char → List Char → Bool
  | _, [] => true
  | [], _ :: _ => false
  | a :: as, b :: bs => a == b && startsWithL as bs

/-- Fuel-indexed worker for `re.sub("<https:.*?>", " ", text)`: scan left to
right, replacing each leftmost non-overlapping match by one space.  One unit
of fuel is spent per scan position, so fuel equal to the input length
suffices. -/
def removeHyperlinkGo : Nat → List Char → List Char
  | 0, l => l
  | _ + 1, [] => []
  | f + 1, c :: cs =>
      if startsWithL (c :: cs) ['<', 'h', 't', 't', 'p', 's', ':'] then
        match findGt (cs.drop 6) with
        | some rest => ' ' :: removeHyperlinkGo f rest
        | none => c :: removeHyperlinkGo f cs
      else c :: removeHyperlinkGo f cs

/-- test.py `remove_hyperlink` (lines 51-53). -/
def remove_hyperlink (l : List Char) : List Char :=
  removeHyperlinkGo l.length l

/-! ### resolve_names (test.py lines 182-204, app.py lines 99-115)

The regex is `<([@#!])(U[A-Z0-9]+|C[A-Z0-9]+|subteam\^S[0-9A-Z]+)>`.
`re.sub` scans left to right; at a match the handler `replace_id` is called
with the sigil (group 1) and the identifier (group 2). -/

/-- A directory (Python dict snapshot): identifier to display name. -/
abbrev Dict := List (List Char × List Char)

/-- Python `d.get(k, k)`: look the key up, falling back to the key itself. -/
def dget (d : Dict) (k : List Char) : List Char :=
  match d.lookup k with
  | some v => v
  | none => k

/-- `elemChar c l` is Python `c in l` for a single character. -/
def elemChar (c : Char) : List Char → Bool
  | [] => false
  | a :: as => a == c || elemChar c as

/-- Python `l.split(sep)` for a one-character separator. -/
def splitOnSep (sep : Char) : List Char → List (List Char)
  | [] => [[]]
  | c :: cs =>
      if c = sep then [] :: splitOnSep sep cs
      else
        match splitOnSep sep cs with
        | [] => [[c]]
        | h :: t => (c :: h) :: t

/-- Match one of the group-2 alternatives `U[A-Z0-9]+` / `C[A-Z0-9]+`
starting with head character `h`, followed by the closing `>`.  Returns the
matched identifier and the remainder after `>`. -/
def parseIdRun (h : Char) (r : List Char) : Option (List Char × List Char) :=
  let run := r.takeWhile isIdChar
  match r.dropWhile isIdChar with
  | '>' :: rest => if run = [] then none else some (h :: run, rest)
  | _ => none

/-- Match group 2 of the mention regex followed by `>`. -/
def parseG2 : List Char → Option (List Char × List Char)
  | 'U' :: r => parseIdRun 'U' r
  | 'C' :: r => parseIdRun 'C' r
  | 's' :: 'u' :: 'b' :: 't' :: 'e' :: 'a' :: 'm' :: '^' :: 'S' :: r =>
      let run := r.takeWhile isIdChar
      (match r.dropWhile isIdChar with
       | '>' :: rest =>
           if run = [] then none
           else some ('s' :: 'u' :: 'b' :: 't' :: 'e' :: 'a' :: 'm' :: '^' :: 'S' :: run, rest)
       | _ => none)
  | _ => none

/-- Match the whole mention regex at the head of `l`: `<`, a sigil from
`[@#!]`, group 2, `>`.  Returns sigil, group 2 and the remainder. -/
def parseMention : List Char → Option (Char × List Char × List Char)
  | '<' :: s :: r =>
      if s = '@' || s = '#' || s = '!' then
        match parseG2 r with
        | some (g2, rest) => some (s, g2, rest)
        | none => none
      else none
  | _ => none

/-- The `'!'` branch of test.py `replace_id` (lines 195-199): guarded by
`'^' in group_id`; without a caret the full match is returned unchanged. -/
def bangTest (g : Dict) (g2 : List Char) : Option (List Char) :=
  if elemChar '^' g2 then
    match (splitOnSep '^' g2).get? 1 with
    | some i => some ('@' :: dget g (pyStrip i))
    | none => none
  else some ('<' :: '!' :: (g2 ++ ['>']))

/-- The `'!'` branch of app.py `replace_id` (lines 108-111): unguarded
`group_id.split("^")[1]`; index 1 may not exist (Python `IndexError`,
modelled as `none`). -/
def bangApp (g : Dict) (g2 : List Char) : Option (List Char) :=
  match (splitOnSep '^' g2).get? 1 with
  | some i => some ('@' :: dget g (pyStrip i))
  | none => none

/-- The shared part of `replace_id`: dispatch on the sigil.  The final
defensive branch returning the full match mirrors the Python `else`. -/
def replaceId (u c : Dict) (bang : List Char → Option (List Char))
    (s : Char) (g2 : List Char) : Option (List Char) :=
  if s = '@' then some ('@' :: dget u g2)
  else if s = '#' then some ('#' :: dget c g2)
  else if s = '!' then bang g2
  else some ('<' :: s :: (g2 ++ ['>']))

/-- Fuel-indexed `re.sub` scan for the mention regex: at each position either
replace a leftmost match via `replaceId` or copy one character.  One unit of
fuel per scan position, so fuel equal to the input length suffices.  A `none`
from the handler (a raised exception) aborts the whole substitution. -/
def resolveGo (u c : Dict) (bang : List Char → Option (List Char)) :
    Nat → List Char → Option (List Char)
  | 0, l => some l
  | _ + 1, [] => some []
  | f + 1, ch :: cs =>
      match parseMention (ch :: cs) with
      | some (s, g2, rest) =>
          match replaceId u c bang s g2 with
          | some rep => (resolveGo u c bang f rest).map (fun t => rep ++ t)
          | none => none
      | none => (resolveGo u c bang f cs).map (fun t => ch :: t)

/-- test.py `resolve_names` (lines 182-204). -/
def resolve_names (t : List Char) (u c g : Dict) : Option (List Char) :=
  resolveGo u c (bangTest g) t.length t

/-- app.py `resolve_names` (lines 99-115). -/
def resolve_names_app (t : List Char) (u c g : Dict) : Option (List Char) :=
  resolveGo u c (bangApp g) t.length t

/-! ### make_request_with_backoff (test.py lines 80-105, app.py lines 29-45) -/

/-- Outcome of one `session.get` + `raise_for_status` + `.json()` round trip:
a parsed body, an HTTP error with its status code, or a transport-level
`requests.RequestException`. -/
inductive HttpResult (β : Type) where
  | success (body : β)
  | httpError (status : Nat)
  | transportError
deriving DecidableEq

/-- Observable outcome of `make_request_with_backoff`: the returned value
(`none` is the Python `None` failure signal), the list of `time.sleep`
durations in order, and the number of GET attempts performed. -/
structure BackoffOut (β : Type) where
  result : Option β
  sleeps : List ℚ
  attempts : Nat
deriving DecidableEq

/-- The `for attempt in range(max_retries)` loop.  `remaining` counts the
loop iterations left (`max_retries - attempt`); the response of attempt `i`
is `resp i`, and the jitter drawn on attempt `i` is `jit i`. -/
def backoffGo (resp : Nat → HttpResult β) (maxRetries : Nat) (initialBackoff : ℚ)
    (jit : Nat → ℚ) : Nat → Nat → BackoffOut β
  | 0, _ => ⟨none, [], 0⟩
  | remaining + 1, attempt =>
      match resp attempt with
      | .success b => ⟨some b, [], 1⟩
      | .transportError => ⟨none, [], 1⟩
      | .httpError s =>
          if s = 429 then
            if attempt < maxRetries - 1 then
              let rest := backoffGo resp maxRetries initialBackoff jit remaining (attempt + 1)
              ⟨rest.result, (initialBackoff * 2 ^ attempt + jit attempt) :: rest.sleeps,
               rest.attempts + 1⟩
            else ⟨none, [], 1⟩
          else ⟨none, [], 1⟩

/-- `make_request_with_backoff` (identical in both files). -/
def make_request_with_backoff (resp : Nat → HttpResult β) (maxRetries : Nat)
    (initialBackoff : ℚ) (jit : Nat → ℚ) : BackoffOut β :=
  backoffGo resp maxRetries initialBackoff jit maxRetries 0

/-! ### fetch_thread_replies (test.py lines 207-235) -/

/-- test.py line 24. -/
def MAX_MESSAGES_PER_THREAD : Nat := 1000

/-- One parsed response of the `conversations.replies` endpoint, generic in
the message payload (the loop never inspects message contents). -/
structure ReplyPage (α : Type) where
  ok : Bool
  messages : List α
  hasMore : Bool
  nextCursor : Option String
deriving DecidableEq

/-- Python truthiness of an optional string (`None` and `""` are falsy). -/
def truthyS : Option String → Bool
  | none => false
  | some s => s ≠ ""

/-- Observable outcome of `fetch_thread_replies`: the returned reply list,
the number of requests issued, and (for specification) the ok-pages
processed, in order. -/
structure RepliesOut (α : Type) where
  result : List α
  requests : Nat
  pages : List (ReplyPage α)
deriving DecidableEq

/-- The `while len(all_replies) < MAX_MESSAGES_PER_THREAD` loop of
`fetch_thread_replies`.  The endpoint is a function from the current cursor
(`none` on the first request) to an optional page; `messages.tail` is the
`data["messages"][1:]` slice.  One unit of fuel per request. -/
def fetchRepliesGo (api : Option String → Option (ReplyPage α)) (maxMsgs : Nat) :
    Nat → Option String → List α → Nat → RepliesOut α
  | 0, _, acc, reqs => ⟨acc.take maxMsgs, reqs, []⟩
  | fuel + 1, cursor, acc, reqs =>
      if acc.length < maxMsgs then
        match api cursor with
        | some page =>
            if page.ok then
              let acc2 := acc ++ page.messages.tail
              if page.hasMore && truthyS page.nextCursor then
                let rest := fetchRepliesGo api maxMsgs fuel page.nextCursor acc2 (reqs + 1)
                ⟨rest.result, rest.requests, page :: rest.pages⟩
              else ⟨acc2.take maxMsgs, reqs + 1, [page]⟩
            else ⟨acc.take maxMsgs, reqs + 1, []⟩
        | none => ⟨acc.take maxMsgs, reqs + 1, []⟩
      else ⟨acc.take maxMsgs, reqs, []⟩

/-- test.py `fetch_thread_replies` (lines 207-235), with the cap at its
source value 1000. -/
def fetch_thread_replies (api : Option String → Option (ReplyPage α)) (fuel : Nat) :
    RepliesOut α :=
  fetchRepliesGo api MAX_MESSAGES_PER_THREAD fuel none [] 0

/-! ### extract_slack_threads history loop (test.py lines 331-368) -/

/-- One message from `conversations.history` / `conversations.replies`, with
the fields the extraction loop reads.  `user`/`subtype`/`threadTs` are
optional because the Python code uses `.get`. -/
structure HistMsg where
  user : Option String
  subtype : Option String
  ts : String
  threadTs : Option String
  replyCount : Nat
deriving DecidableEq

/-- One parsed response of the `conversations.history` endpoint. -/
structure HistPage where
  ok : Bool
  messages : List HistMsg
  hasMore : Bool
  nextCursor : Option String
deriving DecidableEq

/-- The request parameters the history loop mutates: `params["cursor"]` and
`params["latest"]` (channel, limit and `oldest` never change and are folded
into the endpoint function). -/
structure HistReq where
  cursor : Option String
  latest : Option String
deriving DecidableEq

/-- `message.get("user", message.get("subtype", ""))` (test.py line 341). -/
def authorOf (m : HistMsg) : String :=
  match m.user with
  | some u => u
  | none => m.subtype.getD ""

/-- `hasSubstrL hay needle`: Python `needle in hay` for strings. -/
def hasSubstrL (hay needle : List Char) : Bool :=
  match hay with
  | [] => needle = []
  | _ :: t => startsWithL hay needle || hasSubstrL t needle

/-- Lowercase a character list (Python `str.lower()`, ASCII range). -/
def lowerL (l : List Char) : List Char := l.map Char.toLower

/-- The root filter of test.py line 342:
`user != "USLACKBOT" and "bot" not in user.lower()` — this is the negation,
i.e. the author is excluded. -/
def rootExcluded (a : String) : Bool :=
  a == "USLACKBOT" || hasSubstrL (lowerL a.data) ['b', 'o', 't']

/-- The replies-fetch condition of test.py line 346:
`message.get("thread_ts") and message.get("reply_count", 0) > 0`. -/
def wantsReplies (m : HistMsg) : Bool :=
  truthyS m.threadTs && decide (0 < m.replyCount)

/-- `if max_threads and len(all_threads) >= max_threads` (test.py line 353):
note `max_threads = 0` is falsy in Python, so it imposes no cap. -/
def capReached (maxThreads : Option Nat) (n : Nat) : Bool :=
  match maxThreads with
  | some k => decide (0 < k) && decide (k ≤ n)
  | none => false

/-- The per-page `for message in messages` body (test.py lines 339-354).
`repliesFor ts` is the (already unfolded) result of
`fetch_thread_replies(session, channel_id, ts)`, and `count` is the current
`len(all_threads)`.  Returns the threads appended by this page, the `ts`
values for which a replies fetch was issued, and whether the
`max_threads` break fired. -/
def procMsgs (repliesFor : String → List HistMsg) (maxThreads : Option Nat) :
    List HistMsg → Nat → List (List HistMsg) × List String × Bool
  | [], _ => ([], [], false)
  | m :: ms, count =>
      if rootExcluded (authorOf m) then procMsgs repliesFor maxThreads ms count
      else
        let fetches := wantsReplies m
        let thread := if fetches then m :: repliesFor m.ts else [m]
        if capReached maxThreads (count + 1) then
          ([thread], if fetches then [m.ts] else [], true)
        else
          let r := procMsgs repliesFor maxThreads ms (count + 1)
          (thread :: r.1, (if fetches then [m.ts] else []) ++ r.2.1, r.2.2)

/-- Observable outcome of the history loop: the assembled threads, the `ts`
values for which a nested replies fetch was issued, the concatenation of all
fetched pages' messages (the stream the loop iterated), whether the loop
exited through the fetch-error branch, and whether the
`messages[-1]` fallback raised `IndexError` on an empty page. -/
structure ExtractOut where
  threads : List (List HistMsg)
  fetchCalls : List String
  histMsgs : List HistMsg
  fetchFailed : Bool
  crashed : Bool
deriving DecidableEq

/-- The `while True` pagination loop of `extract_slack_threads`
(test.py lines 331-368), one unit of fuel per request. -/
def extractGo (api : HistReq → Option HistPage) (repliesFor : String → List HistMsg)
    (maxThreads : Option Nat) :
    Nat → HistReq → List (List HistMsg) → List String → List HistMsg → ExtractOut
  | 0, _, thr, fc, ms => ⟨thr, fc, ms, false, false⟩
  | fuel + 1, req, thr, fc, ms =>
      match api req with
      | some page =>
          if page.ok then
            let p := procMsgs repliesFor maxThreads page.messages thr.length
            let thr2 := thr ++ p.1
            let fc2 := fc ++ p.2.1
            let ms2 := ms ++ page.messages
            if p.2.2 then ⟨thr2, fc2, ms2, false, false⟩
            else if page.hasMore then
              if truthyS page.nextCursor then
                extractGo api repliesFor maxThreads fuel
                  { cursor := page.nextCursor, latest := req.latest } thr2 fc2 ms2
              else
                match page.messages.getLast? with
                | some lastM =>
                    extractGo api repliesFor maxThreads fuel
                      { cursor := page.nextCursor, latest := some lastM.ts } thr2 fc2 ms2
                | none => ⟨thr2, fc2, ms2, false, true⟩
            else ⟨thr2, fc2, ms2, false, false⟩
          else ⟨thr, fc, ms, true, false⟩
      | none => ⟨thr, fc, ms, true, false⟩

/-- The history loop of `extract_slack_threads`, started from the initial
request parameters (no cursor; `latest`/`oldest` folded into `api`). -/
def extract_slack_threads_run (api : HistReq → Option HistPage)
    (repliesFor : String → List HistMsg) (maxThreads : Option Nat) (fuel : Nat) :
    ExtractOut :=
  extractGo api repliesFor maxThreads fuel ⟨none, none⟩ [] [] []

/-! ### Date handling: `datetime.strptime(s, "%Y-%m-%d")` and
`unix_timestamp` (test.py lines 66-68 and 307-309, app.py lines 26-27 and
152-159).  A parsed midnight datetime is represented by its day number since
1970-01-01; `int(dt.timestamp())` is modelled assuming a UTC clock. -/

/-- ASCII digit test. -/
def isDigitCh (c : Char) : Bool := 48 ≤ c.toNat && c.toNat ≤ 57

/-- Value of an ASCII digit. -/
def digitVal (c : Char) : Nat := c.toNat - 48

/-- Gregorian leap-year rule. -/
def isLeapYear (y : Nat) : Bool := y % 4 = 0 && (y % 100 ≠ 0 || y % 400 = 0)

/-- Number of days in a month (`datetime` validation). -/
def daysInMonth (y m : Nat) : Nat :=
  if m = 2 then (if isLeapYear y then 29 else 28)
  else if m = 4 || m = 6 || m = 9 || m = 11 then 30
  else 31

/-- Days from 1970-01-01 to year `y`, month `m`, day `d` (proleptic
Gregorian, valid for `1 ≤ y`, `1 ≤ m ≤ 12`, `1 ≤ d`). -/
def daysFromCivil (y m d : Nat) : Int :=
  let y2 := if m ≤ 2 then y - 1 else y
  let m2 := if m ≤ 2 then m + 9 else m - 3
  let doy := (153 * m2 + 2) / 5 + (d - 1)
  ((y2 * 365 + y2 / 4 + y2 / 400 + doy : Nat) : Int) - ((y2 / 100 : Nat) : Int) - 719468

/-- The day field of CPython strptime, regex `3[01]|[12]\d|0[1-9]|[1-9]`,
required to consume the whole remainder of the string. -/
def parseDayPart : List Char → Option Nat
  | [a] => if 49 ≤ a.toNat && a.toNat ≤ 57 then some (digitVal a) else none
  | [a, b] =>
      if a = '3' && (b = '0' || b = '1') then some (30 + digitVal b)
      else if (a = '1' || a = '2') && isDigitCh b then some (10 * digitVal a + digitVal b)
      else if a = '0' && 49 ≤ b.toNat && b.toNat ≤ 57 then some (digitVal b)
      else none
  | _ => none

/-- The month field (regex `1[0-2]|0[1-9]|[1-9]`), the literal `-`, and the
day field. -/
def parseMD : List Char → Option (Nat × Nat)
  | a :: b :: '-' :: rest =>
      if a = '1' && (b = '0' || b = '1' || b = '2') then
        (parseDayPart rest).map (fun d => (10 + digitVal b, d))
      else if a = '0' && 49 ≤ b.toNat && b.toNat ≤ 57 then
        (parseDayPart rest).map (fun d => (digitVal b, d))
      else none
  | a :: '-' :: rest =>
      if 49 ≤ a.toNat && a.toNat ≤ 57 then (parseDayPart rest).map (fun d => (digitVal a, d))
      else none
  | _ => none

/-- `datetime.strptime(s, "%Y-%m-%d")`: four year digits, `-`, month, `-`,
day, full-string match, then `datetime` range validation (year at least 1,
day within the month).  Returns the day number since the epoch, or `none`
for the raised `ValueError`. -/
def strptimeYMD (s : String) : Option Int :=
  match s.data with
  | y1 :: y2 :: y3 :: y4 :: '-' :: rest =>
      if isDigitCh y1 && isDigitCh y2 && isDigitCh y3 && isDigitCh y4 then
        let y := 1000 * digitVal y1 + 100 * digitVal y2 + 10 * digitVal y3 + digitVal y4
        match parseMD rest with
        | some (m, d) =>
            if 1 ≤ y ∧ d ≤ daysInMonth y m then some (daysFromCivil y m d) else none
        | none => none
      else none
  | _ => none

/-- `unix_timestamp` / `unix_ts`: `int(dt.timestamp())` of a midnight
datetime `days` days after the epoch, on a UTC clock. -/
def unix_timestamp (days : Int) : Int := days * 86400

/-- The `latest` bound of test.py line 309:
`unix_timestamp(datetime.strptime(end_date, "%Y-%m-%d") + timedelta(days=1))`
(`+ timedelta(days=1)` moves the midnight datetime one civil day later). -/
def testLatest (endDate : String) : Option Int :=
  (strptimeYMD endDate).map (fun d => unix_timestamp (d + 1))

/-- The `latest` bound of app.py line 159: `unix_ts(end_date)` at midnight of
the end date itself. -/
def appLatest (endDate : String) : Option Int :=
  (strptimeYMD endDate).map (fun d => unix_timestamp d)

/-! ### Run completion status (test.py run_extraction_pipeline, lines 627-691) -/

/-- The completion-status computation of `run_extraction_pipeline`: it
depends only on the extracted thread count, the LLM `processed` count and the
`process_with_llm_flag` — no signal about history-fetch failures reaches it.
(The `"failed"` status is produced only by a raised exception, which the
fetch-error branch of `extract_slack_threads` never raises.) -/
def pipelineStatus (threadsCount processedCount : Nat) (llmFlag : Bool) : String :=
  if 0 < threadsCount then
    if llmFlag then
      if 0 < processedCount then "success" else "partial_success"
    else "success"
  else "no_data"

/-! ### Order of validation versus network activity (test.py lines 296-319,
app.py lines 133-186) -/

/-- Network requests issued by either entry point, in order. -/
inductive NetAction where
  | netUsers
  | netChannels
  | netGroups
  | netHistory
deriving DecidableEq

/-- The observable action order of test.py `extract_slack_threads`
(lines 296-319): the session is created, `fetch_workspace_data` issues the
three directory listings, and only then are `start_date`/`end_date` parsed
(a bad date raises `ValueError` there, after the network activity).  The
`token` argument is never validated; it does not influence the trace.
Returns the network actions performed and whether date validation passed. -/
def extractActions (token : Option String) (startDate endDate : Option String) :
    List NetAction × Bool :=
  let dirActs := [NetAction.netUsers, NetAction.netChannels, NetAction.netGroups]
  let checkEnd : List NetAction × Bool :=
    if truthyS endDate then
      match strptimeYMD (endDate.getD "") with
      | none => (dirActs, false)
      | some _ => (dirActs ++ [NetAction.netHistory], true)
    else (dirActs ++ [NetAction.netHistory], true)
  let _ := token
  if truthyS startDate then
    match strptimeYMD (startDate.getD "") with
    | none => (dirActs, false)
    | some _ => checkEnd
  else checkEnd

/-- Rejection reasons of the app.py `/fetch-slack-messages` route. -/
inductive AppErr where
  | missingParam
  | badDate
deriving DecidableEq

/-- The observable action order of the app.py route (lines 133-186):
presence check, then date parsing, and only on success the session is created
and the directory and history fetches run.  Returns the network actions
performed and the 400 rejection, if any. -/
def appRouteActions (token channelId startDate endDate : Option String) :
    List NetAction × Option AppErr :=
  if truthyS token && truthyS channelId && truthyS startDate && truthyS endDate then
    match strptimeYMD (startDate.getD ""), strptimeYMD (endDate.getD "") with
    | some _, some _ =>
        ([NetAction.netUsers, NetAction.netChannels, NetAction.netGroups, NetAction.netHistory], none)
    | _, _ => ([], some AppErr.badDate)
  else ([], some AppErr.missingParam)

/-! ### The text-cleaning pipeline applied before an Output Record -/

/-- The composed cleaning applied to message text in `format_thread_data`
(test.py lines 250 and 267):
`clean_text(resolve_names(text, users, channels, usergroups))`. -/
def formatCleanPipeline (t : List Char) (u c g : Dict) : Option (List Char) :=
  (resolve_names t u c g).map clean_text

/-- The cleaning order asserted by the specification:
`collapse_whitespace(resolve(strip_hyperlinks(strip_control(text))))`. -/
def claimCleanPipeline (t : List Char) (u c g : Dict) : Option (List Char) :=
  (resolve_names (remove_hyperlink (stripControl t)) u c g).map collapseWs

/-! ### Synthetic endpoint instances used by the concrete theorems -/

/-- A replies endpoint for a two-page thread: the root echo `0` and replies
`1, 2, 3`, split as `[0, 1]` then `[2, 3]` (the root is echoed once, at the
start of the listing, as in the specification of the replies endpoint). -/
def twoPageRepliesApi : Option String → Option (ReplyPage Nat)
  | none => some ⟨true, [0, 1], true, some "c1"⟩
  | some s => if s = "c1" then some ⟨true, [2, 3], false, none⟩ else none

/-- A replies endpoint serving a root echo (`0`) followed by replies
`1 … 1500`, in 16 pages of up to 100 messages. -/
def capPages : List (ReplyPage Nat) :=
  (List.range 16).map (fun k =>
    { ok := true
      messages := List.range' (100 * k) (min 100 (1501 - 100 * k))
      hasMore := decide (k < 15)
      nextCursor := if k < 15 then some ("c" ++ toString (k + 1)) else none })

/-- Serve a fixed page list through cursors `c1, c2, …`. -/
def seqApi (pages : List (ReplyPage Nat)) : Option String → Option (ReplyPage Nat)
  | none => pages[0]?
  | some s => (List.range pages.length).findSome?
      (fun k => if s = "c" ++ toString k then pages[k]? else none)

/-- A bot-authored root event. -/
def botRoot : HistMsg := ⟨some "buildbot", none, "1.0", none, 0⟩

/-- A human-authored root event opening a thread. -/
def humanRoot : HistMsg := ⟨some "alice", none, "2.0", some "2.0", 1⟩

/-- A bot-authored reply inside the human thread. -/
def botReply : HistMsg := ⟨some "helperbot", none, "3.0", some "2.0", 0⟩

/-- History endpoint with a single page holding the bot root and the human
root. -/
def botFilterHistApi : HistReq → Option HistPage
  | ⟨none, _⟩ => some ⟨true, [botRoot, humanRoot], false, none⟩
  | _ => none

/-- Replies endpoint for the human thread: root echo first, then the bot
reply. -/
def botFilterRepliesApi (ts : String) : Option String → Option (ReplyPage HistMsg) :=
  fun cur =>
    if ts = "2.0" && cur = none then some ⟨true, [humanRoot, botReply], false, none⟩
    else none

/-- The nested `fetch_thread_replies` call of the bot-filter scenario. -/
def botFilterReplies (ts : String) : List HistMsg :=
  (fetch_thread_replies (botFilterRepliesApi ts) 5).result

/-- An unfiltered event whose `thread_ts` differs from its own `ts` but whose
reply count is positive. -/
def strayReplyMsg : HistMsg := ⟨some "alice", none, "2.0", some "1.0", 1⟩

/-- History endpoint with a single page holding only `strayReplyMsg`. -/
def strayHistApi : HistReq → Option HistPage
  | ⟨none, _⟩ => some ⟨true, [strayReplyMsg], false, none⟩
  | _ => none

/-- A human-authored event with no thread. -/
def plainMsg : HistMsg := ⟨some "alice", none, "5.0", none, 0⟩

/-- History endpoint that serves one good page announcing more data and then
fails (the backoff fetcher returns `None` for the second request). -/
def failingHistApi : HistReq → Option HistPage
  | ⟨none, _⟩ => some ⟨true, [plainMsg], true, some "c1"⟩
  | _ => none

/-! ## Helper lemmas -/

theorem dropWhile_eq_self_of_not (p : Char → Bool) :
    ∀ l : List Char, (∀ c ∈ l, p c = false) → l.dropWhile p = l := by
  intro l h
  cases l with
  | nil => rfl
  | cons a as => rw [List.dropWhile_cons, h a (by simp)]; simp

theorem pyStrip_eq_self_of_not (l : List Char) (h : ∀ c ∈ l, isPySpace c = false) :
    pyStrip l = l := by
  unfold pyStrip
  rw [dropWhile_eq_self_of_not _ l h,
    dropWhile_eq_self_of_not _ l.reverse (by intro c hc; exact h c (List.mem_reverse.mp hc)),
    List.reverse_reverse]

theorem splitWsGo_words :
    ∀ (l acc : List Char), (∀ c ∈ acc, isPySpace c = false) →
      ∀ w ∈ splitWsGo l acc, w ≠ [] ∧ ∀ c ∈ w, isPySpace c = false := by
  intro l
  induction l with
  | nil =>
      intro acc hacc w hw
      unfold splitWsGo at hw
      by_cases hn : acc = []
      · simp [hn] at hw
      · simp [hn] at hw
        subst hw
        refine ⟨by simpa using hn, ?_⟩
        intro c hc
        exact hacc c (List.mem_reverse.mp hc)
  | cons a as ih =>
      intro acc hacc w hw
      unfold splitWsGo at hw
      by_cases hsp : isPySpace a
      · simp only [hsp, if_true] at hw
        by_cases hn : acc = []
        · simp only [hn, if_pos rfl] at hw
          exact ih [] (by simp) w hw
        · simp only [if_neg hn] at hw
          rcases List.mem_cons.mp hw with h1 | h2
          · subst h1
            refine ⟨by simpa using hn, ?_⟩
            intro c hc
            exact hacc c (List.mem_reverse.mp hc)
          · exact ih [] (by simp) w h2
      · simp only [hsp, if_false, Bool.false_eq_true] at hw
        refine ih (a :: acc) ?_ w hw
        intro c hc
        rcases List.mem_cons.mp hc with h1 | h2
        · subst h1; simpa using hsp
        · exact hacc c h2

theorem joinSpace_cons_decomp (w : List Char) (ws : List (List Char)) :
    ∃ r, joinSpace (w :: ws) = w ++ r := by
  cases ws with
  | nil => exact ⟨[], by simp [joinSpace]⟩
  | cons w2 ws2 => exact ⟨' ' :: joinSpace (w2 :: ws2), by simp [joinSpace]⟩

theorem joinSpace_dropWhile :
    ∀ W : List (List Char), (∀ w ∈ W, w ≠ [] ∧ ∀ c ∈ w, isPySpace c = false) →
      (joinSpace W).dropWhile isPySpace = joinSpace W := by
  intro W hW
  cases W with
  | nil => rfl
  | cons w ws =>
      obtain ⟨r, hr⟩ := joinSpace_cons_decomp w ws
      obtain ⟨hne, hnospace⟩ := hW w (by simp)
      rw [hr]
      cases w with
      | nil => exact absurd rfl hne
      | cons a as =>
          rw [List.cons_append, List.dropWhile_cons, hnospace a (by simp)]
          simp

theorem joinSpace_rev_head :
    ∀ W : List (List Char), (∀ w ∈ W, w ≠ [] ∧ ∀ c ∈ w, isPySpace c = false) →
      W ≠ [] →
      ∃ a t, (joinSpace W).reverse = a :: t ∧ isPySpace a = false := by
  intro W
  induction W with
  | nil => intro _ h; exact absurd rfl h
  | cons w ws ih =>
      intro hW _
      obtain ⟨hne, hnospace⟩ := hW w (by simp)
      cases ws with
      | nil =>
          cases hrev : w.reverse with
          | nil => exact absurd (List.reverse_eq_nil_iff.mp hrev) hne
          | cons a t =>
              refine ⟨a, t, by simpa [joinSpace] using hrev, ?_⟩
              have : a ∈ w := List.mem_reverse.mp (by rw [hrev]; simp)
              exact hnospace a this
      | cons w2 ws2 =>
          obtain ⟨a, t, ht, ha⟩ := ih (fun u hu => hW u (by simp [hu])) (by simp)
          refine ⟨a, t ++ ' ' :: w.reverse, ?_, ha⟩
          have : joinSpace (w :: w2 :: ws2) = w ++ ' ' :: joinSpace (w2 :: ws2) := by
            simp [joinSpace]
          rw [this, List.reverse_append, List.reverse_cons, ht]
          simp

theorem joinSpace_rev_dropWhile :
    ∀ W : List (List Char), (∀ w ∈ W, w ≠ [] ∧ ∀ c ∈ w, isPySpace c = false) →
      (joinSpace W).reverse.dropWhile isPySpace = (joinSpace W).reverse := by
  intro W hW
  cases W with
  | nil => rfl
  | cons w ws =>
      obtain ⟨a, t, ht, ha⟩ := joinSpace_rev_head (w :: ws) hW (by simp)
      rw [ht, List.dropWhile_cons, ha]
      simp

theorem idChar_not_space (c : Char) (h : isIdChar c = true) : isPySpace c = false := by
  rw [Bool.eq_false_iff]
  intro hs
  simp only [isIdChar, Bool.or_eq_true, Bool.and_eq_true, decide_eq_true_eq] at h
  simp only [isPySpace, Bool.or_eq_true, Bool.and_eq_true, decide_eq_true_eq] at hs
  omega

theorem idChar_ne_caret (c : Char) (h : isIdChar c = true) : c ≠ '^' := by
  intro he
  rw [he] at h
  exact absurd h (by decide)

theorem takeWhile_append_of_all (p : Char → Bool) :
    ∀ (l : List Char), (∀ c ∈ l, p c = true) → ∀ (a : Char) (r : List Char), p a = false →
      (l ++ a :: r).takeWhile p = l ∧ (l ++ a :: r).dropWhile p = a :: r := by
  intro l
  induction l with
  | nil =>
      intro _ a r ha
      constructor <;> simp [List.takeWhile_cons, List.dropWhile_cons, ha]
  | cons x xs ih =>
      intro h a r ha
      have hx : p x = true := h x (by simp)
      have hr := ih (fun c hc => h c (by simp [hc])) a r ha
      constructor
      · simp [List.takeWhile_cons, hx, hr.1]
      · simp [List.dropWhile_cons, hx, hr.2]

theorem splitOnSep_ne_nil (sep : Char) : ∀ l, splitOnSep sep l ≠ [] := by
  intro l
  induction l with
  | nil => simp [splitOnSep]
  | cons c cs ih =>
      unfold splitOnSep
      by_cases h : c = sep
      · simp [h]
      · simp only [if_neg h]
        cases hs : splitOnSep sep cs with
        | nil => exact absurd hs ih
        | cons hh tt => simp

theorem splitOnSep_len_two (sep : Char) :
    ∀ l, elemChar sep l = true → 2 ≤ (splitOnSep sep l).length := by
  intro l
  induction l with
  | nil => intro h; exact absurd h (by simp [elemChar])
  | cons c cs ih =>
      intro h
      unfold splitOnSep
      by_cases hc : c = sep
      · simp only [if_pos hc, List.length_cons]
        have hne := splitOnSep_ne_nil sep cs
        have h1 : 1 ≤ (splitOnSep sep cs).length := by
          cases hs : splitOnSep sep cs with
          | nil => exact absurd hs hne
          | cons _ _ => simp
        omega
      · have hcs : elemChar sep cs = true := by
          unfold elemChar at h
          simpa [beq_iff_eq, hc] using h
        simp only [if_neg hc]
        cases hs : splitOnSep sep cs with
        | nil => exact absurd hs (splitOnSep_ne_nil sep cs)
        | cons hh tt =>
            have h2 := ih hcs
            rw [hs] at h2
            simpa using h2

theorem splitOnSep_no_sep (sep : Char) :
    ∀ l, (∀ c ∈ l, c ≠ sep) → splitOnSep sep l = [l] := by
  intro l
  induction l with
  | nil => intro _; rfl
  | cons c cs ih =>
      intro h
      unfold splitOnSep
      rw [if_neg (h c (by simp)), ih (fun x hx => h x (by simp [hx]))]

theorem splitOnSep_append (sep : Char) :
    ∀ (a : List Char), (∀ x ∈ a, x ≠ sep) → ∀ b,
      splitOnSep sep (a ++ sep :: b) = a :: splitOnSep sep b := by
  intro a
  induction a with
  | nil => intro _ b; simp [splitOnSep]
  | cons c a2 ih =>
      intro h b
      have hc : c ≠ sep := h c (by simp)
      simp only [List.cons_append]
      simp only [splitOnSep]
      rw [if_neg hc, ih (fun x hx => h x (by simp [hx])) b]

theorem bangTest_isSome (g : Dict) (g2 : List Char) : (bangTest g g2).isSome = true := by
  unfold bangTest
  by_cases h : elemChar '^' g2 = true
  · rw [if_pos h]
    have h2 := splitOnSep_len_two '^' g2 h
    cases hs : (splitOnSep '^' g2).get? 1 with
    | none =>
        have := List.get?_eq_none.mp hs
        omega
    | some i => simp
  · rw [if_neg h]
    simp

theorem replaceId_test_isSome (u c g : Dict) (s : Char) (g2 : List Char) :
    (replaceId u c (bangTest g) s g2).isSome = true := by
  unfold replaceId
  by_cases h1 : s = '@'
  · simp [h1]
  · by_cases h2 : s = '#'
    · simp [h1, h2]
    · by_cases h3 : s = '!'
      · simp [h1, h2, h3, bangTest_isSome]
      · simp [h1, h2, h3]

theorem resolveGo_test_isSome (u c g : Dict) :
    ∀ (f : Nat) (l : List Char), (resolveGo u c (bangTest g) f l).isSome = true := by
  intro f
  induction f with
  | zero => intro l; simp [resolveGo]
  | succ f ih =>
      intro l
      cases l with
      | nil => simp [resolveGo]
      | cons ch cs =>
          simp only [resolveGo]
          cases hm : parseMention (ch :: cs) with
          | none => simp [ih]
          | some trip =>
              obtain ⟨s, g2, rest⟩ := trip
              cases hrep : replaceId u c (bangTest g) s g2 with
              | none =>
                  have hsome := replaceId_test_isSome u c g s g2
                  rw [hrep] at hsome
                  exact absurd hsome (by simp)
              | some rep => simp [hrep, ih]

theorem elemChar_eq_false (ch : Char) :
    ∀ l, (∀ x ∈ l, x ≠ ch) → elemChar ch l = false := by
  intro l
  induction l with
  | nil => intro _; rfl
  | cons a as ih =>
      intro h
      unfold elemChar
      rw [ih (fun x hx => h x (by simp [hx]))]
      have ha : a ≠ ch := h a (by simp)
      simp [ha]

theorem parseIdRun_run (h : Char) (run : List Char) (hne : run ≠ [])
    (hall : ∀ ch ∈ run, isIdChar ch = true) :
    parseIdRun h (run ++ ['>']) = some (h :: run, []) := by
  obtain ⟨ht, hd⟩ := takeWhile_append_of_all isIdChar run hall '>' [] (by decide)
  unfold parseIdRun
  rw [ht, hd]
  simp [hne]

theorem parseG2_U (run : List Char) (hne : run ≠ [])
    (hall : ∀ ch ∈ run, isIdChar ch = true) :
    parseG2 ('U' :: (run ++ ['>'])) = some ('U' :: run, []) := by
  have e : parseG2 ('U' :: (run ++ ['>'])) = parseIdRun 'U' (run ++ ['>']) := rfl
  rw [e]
  exact parseIdRun_run 'U' run hne hall

theorem parseG2_C (run : List Char) (hne : run ≠ [])
    (hall : ∀ ch ∈ run, isIdChar ch = true) :
    parseG2 ('C' :: (run ++ ['>'])) = some ('C' :: run, []) := by
  have e : parseG2 ('C' :: (run ++ ['>'])) = parseIdRun 'C' (run ++ ['>']) := rfl
  rw [e]
  exact parseIdRun_run 'C' run hne hall

theorem parseG2_subteam (run : List Char) (hne : run ≠ [])
    (hall : ∀ ch ∈ run, isIdChar ch = true) :
    parseG2 ('s' :: 'u' :: 'b' :: 't' :: 'e' :: 'a' :: 'm' :: '^' :: 'S' :: (run ++ ['>']))
      = some ('s' :: 'u' :: 'b' :: 't' :: 'e' :: 'a' :: 'm' :: '^' :: 'S' :: run, []) := by
  obtain ⟨ht, hd⟩ := takeWhile_append_of_all isIdChar run hall '>' [] (by decide)
  have e : parseG2 ('s' :: 'u' :: 'b' :: 't' :: 'e' :: 'a' :: 'm' :: '^' :: 'S' :: (run ++ ['>']))
      = (match (run ++ ['>']).dropWhile isIdChar with
         | '>' :: rest =>
             if (run ++ ['>']).takeWhile isIdChar = [] then none
             else some ('s' :: 'u' :: 'b' :: 't' :: 'e' :: 'a' :: 'm' :: '^' :: 'S'
                 :: (run ++ ['>']).takeWhile isIdChar, rest)
         | _ => none) := rfl
  rw [e, ht, hd]
  simp [hne]

theorem parseMention_cons (sig : Char) (body g2 rest : List Char)
    (hs : (sig = '@' || sig = '#' || sig = '!') = true)
    (h : parseG2 body = some (g2, rest)) :
    parseMention ('<' :: sig :: body) = some (sig, g2, rest) := by
  simp [parseMention, hs, h]

theorem resolveGo_nil (u c : Dict) (b : List Char → Option (List Char)) :
    ∀ f, resolveGo u c b f [] = some [] := by
  intro f
  cases f <;> rfl

theorem resolve_token (u c : Dict) (bang : List Char → Option (List Char))
    (sig : Char) (body g2 : List Char)
    (hs : (sig = '@' || sig = '#' || sig = '!') = true)
    (hg : parseG2 body = some (g2, []))
    (rep : List Char) (hrep : replaceId u c bang sig g2 = some rep) :
    resolveGo u c bang ('<' :: sig :: body).length ('<' :: sig :: body) = some rep := by
  have hm := parseMention_cons sig body g2 [] hs hg
  simp only [List.length_cons]
  simp only [resolveGo, hm, hrep]
  simp

theorem resolve_names_user (u c g : Dict) (run : List Char) (hne : run ≠ [])
    (hall : ∀ ch ∈ run, isIdChar ch = true) :
    resolve_names ('<' :: '@' :: 'U' :: (run ++ ['>'])) u c g
      = some ('@' :: dget u ('U' :: run)) := by
  unfold resolve_names
  exact resolve_token u c (bangTest g) '@' ('U' :: (run ++ ['>'])) ('U' :: run) (by decide)
    (parseG2_U run hne hall) _ (by simp [replaceId])

theorem resolve_names_channel (u c g : Dict) (run : List Char) (hne : run ≠ [])
    (hall : ∀ ch ∈ run, isIdChar ch = true) :
    resolve_names ('<' :: '#' :: 'C' :: (run ++ ['>'])) u c g
      = some ('#' :: dget c ('C' :: run)) := by
  unfold resolve_names
  exact resolve_token u c (bangTest g) '#' ('C' :: (run ++ ['>'])) ('C' :: run) (by decide)
    (parseG2_C run hne hall) _ (by simp [replaceId])

theorem resolve_names_group (u c g : Dict) (run : List Char) (hne : run ≠ [])
    (hall : ∀ ch ∈ run, isIdChar ch = true) :
    resolve_names
        ('<' :: '!' :: 's' :: 'u' :: 'b' :: 't' :: 'e' :: 'a' :: 'm' :: '^' :: 'S' :: (run ++ ['>']))
        u c g
      = some ('@' :: dget g ('S' :: run)) := by
  unfold resolve_names
  refine resolve_token u c (bangTest g) '!'
    ('s' :: 'u' :: 'b' :: 't' :: 'e' :: 'a' :: 'm' :: '^' :: 'S' :: (run ++ ['>']))
    ('s' :: 'u' :: 'b' :: 't' :: 'e' :: 'a' :: 'm' :: '^' :: 'S' :: run) (by decide)
    (parseG2_subteam run hne hall) _ ?_
  have hel : elemChar '^' ('s' :: 'u' :: 'b' :: 't' :: 'e' :: 'a' :: 'm' :: '^' :: 'S' :: run)
      = true := by simp [elemChar]
  have h2 : splitOnSep '^' ('S' :: run) = ['S' :: run] := by
    refine splitOnSep_no_sep '^' ('S' :: run) ?_
    intro x hx
    rcases List.mem_cons.mp hx with h | h
    · subst h; decide
    · exact idChar_ne_caret x (hall x h)
  have hsplit : splitOnSep '^' ('s' :: 'u' :: 'b' :: 't' :: 'e' :: 'a' :: 'm' :: '^' :: 'S' :: run)
      = [['s', 'u', 'b', 't', 'e', 'a', 'm'], 'S' :: run] := by
    have ha := splitOnSep_append '^' ['s', 'u', 'b', 't', 'e', 'a', 'm'] (by decide) ('S' :: run)
    have e : ('s' :: 'u' :: 'b' :: 't' :: 'e' :: 'a' :: 'm' :: '^' :: 'S' :: run : List Char)
        = ['s', 'u', 'b', 't', 'e', 'a', 'm'] ++ '^' :: ('S' :: run) := rfl
    rw [e, ha, h2]
  have hstrip : pyStrip ('S' :: run) = 'S' :: run := by
    refine pyStrip_eq_self_of_not _ ?_
    intro x hx
    rcases List.mem_cons.mp hx with h | h
    · subst h; decide
    · exact idChar_not_space x (hall x h)
  simp [replaceId, bangTest, hel, hsplit, hstrip]

theorem resolve_names_bang_unchanged (u c g : Dict) (run : List Char) (hne : run ≠ [])
    (hall : ∀ ch ∈ run, isIdChar ch = true) :
    resolve_names ('<' :: '!' :: 'U' :: (run ++ ['>'])) u c g
      = some ('<' :: '!' :: 'U' :: (run ++ ['>'])) := by
  unfold resolve_names
  refine resolve_token u c (bangTest g) '!' ('U' :: (run ++ ['>'])) ('U' :: run) (by decide)
    (parseG2_U run hne hall) _ ?_
  have hel : elemChar '^' ('U' :: run) = false := by
    refine elemChar_eq_false '^' ('U' :: run) ?_
    intro x hx
    rcases List.mem_cons.mp hx with h | h
    · subst h; decide
    · exact idChar_ne_caret x (hall x h)
  simp [replaceId, bangTest, hel]

theorem fetchRepliesGo_result_spec {α : Type} (api : Option String → Option (ReplyPage α))
    (maxMsgs : Nat) :
    ∀ (fuel : Nat) (cursor : Option String) (acc : List α) (reqs : Nat),
      (fetchRepliesGo api maxMsgs fuel cursor acc reqs).result
        = (acc ++ ((fetchRepliesGo api maxMsgs fuel cursor acc reqs).pages.map
            (fun p => p.messages.tail)).flatten).take maxMsgs := by
  intro fuel
  induction fuel with
  | zero => intro cursor acc reqs; simp [fetchRepliesGo]
  | succ fuel ih =>
      intro cursor acc reqs
      simp only [fetchRepliesGo]
      by_cases hlen : acc.length < maxMsgs
      · simp only [if_pos hlen]
        cases hapi : api cursor with
        | none => simp
        | some page =>
            by_cases hok : page.ok = true
            · simp only [hok, if_true]
              by_cases hmore : (page.hasMore && truthyS page.nextCursor) = true
              · simp only [hmore, if_true]
                rw [ih page.nextCursor (acc ++ page.messages.tail) (reqs + 1)]
                simp [List.append_assoc]
              · simp only [hmore, Bool.false_eq_true, if_false]
                simp
            · simp only [Bool.not_eq_true] at hok
              simp [hok]
      · simp only [if_neg hlen]
        simp

theorem procMsgs_nocap (rf : String → List HistMsg) :
    ∀ (msgs : List HistMsg) (count : Nat),
      (procMsgs rf none msgs count).2.1
          = (msgs.filter (fun m => !rootExcluded (authorOf m) && wantsReplies m)).map
              (fun m => m.ts) ∧
      (procMsgs rf none msgs count).2.2 = false := by
  intro msgs
  induction msgs with
  | nil => intro count; exact ⟨rfl, rfl⟩
  | cons m ms ih =>
      intro count
      simp only [procMsgs, capReached]
      rw [List.filter_cons]
      by_cases hex : rootExcluded (authorOf m) = true
      · simp only [hex, if_true, Bool.not_true, Bool.false_and, Bool.false_eq_true, if_false]
        exact ih count
      · simp only [Bool.not_eq_true] at hex
        simp only [hex, Bool.false_eq_true, if_false, Bool.not_false, Bool.true_and]
        by_cases hw : wantsReplies m = true
        · simp [hw, (ih (count + 1)).1, (ih (count + 1)).2]
        · simp only [Bool.not_eq_true] at hw
          simp [hw, (ih (count + 1)).1, (ih (count + 1)).2]

theorem extractGo_fetch_spec (api : HistReq → Option HistPage) (rf : String → List HistMsg) :
    ∀ (fuel : Nat) (req : HistReq) (thr : List (List HistMsg)) (fc : List String)
      (ms : List HistMsg),
      ∃ newMs : List HistMsg,
        (extractGo api rf none fuel req thr fc ms).histMsgs = ms ++ newMs ∧
        (extractGo api rf none fuel req thr fc ms).fetchCalls
          = fc ++ (newMs.filter
              (fun m => !rootExcluded (authorOf m) && wantsReplies m)).map (fun m => m.ts) := by
  intro fuel
  induction fuel with
  | zero =>
      intro req thr fc ms
      exact ⟨[], by simp [extractGo], by simp [extractGo]⟩
  | succ fuel ih =>
      intro req thr fc ms
      simp only [extractGo]
      cases hapi : api req with
      | none => exact ⟨[], by simp, by simp⟩
      | some page =>
          by_cases hok : page.ok = true
          · simp only [hok, if_true]
            have hp := procMsgs_nocap rf page.messages thr.length
            rw [hp.2]
            simp only [Bool.false_eq_true, if_false]
            by_cases hmore : page.hasMore = true
            · simp only [hmore, if_true]
              by_cases hcur : truthyS page.nextCursor = true
              · simp only [hcur, if_true]
                obtain ⟨nm, h1, h2⟩ := ih { cursor := page.nextCursor, latest := req.latest }
                  (thr ++ (procMsgs rf none page.messages thr.length).1)
                  (fc ++ (procMsgs rf none page.messages thr.length).2.1)
                  (ms ++ page.messages)
                refine ⟨page.messages ++ nm, ?_, ?_⟩
                · rw [h1, List.append_assoc]
                · rw [h2, hp.1, List.filter_append, List.map_append, List.append_assoc]
              · simp only [hcur, Bool.false_eq_true, if_false]
                cases hlast : page.messages.getLast? with
                | none =>
                    refine ⟨page.messages, by simp, ?_⟩
                    simp [hp.1]
                | some lastM =>
                    obtain ⟨nm, h1, h2⟩ := ih
                      { cursor := page.nextCursor, latest := some lastM.ts }
                      (thr ++ (procMsgs rf none page.messages thr.length).1)
                      (fc ++ (procMsgs rf none page.messages thr.length).2.1)
                      (ms ++ page.messages)
                    refine ⟨page.messages ++ nm, ?_, ?_⟩
                    · rw [h1, List.append_assoc]
                    · rw [h2, hp.1, List.filter_append, List.map_append, List.append_assoc]
            · simp only [hmore, Bool.false_eq_true, if_false]
              refine ⟨page.messages, by simp, ?_⟩
              simp [hp.1]
          · simp only [Bool.not_eq_true] at hok
            simp only [hok, Bool.false_eq_true, if_false]
            exact ⟨[], by simp, by simp⟩

theorem backoffGo_all429 {β : Type} (resp : Nat → HttpResult β)
    (h429 : ∀ i, resp i = HttpResult.httpError 429) (mr : Nat) (ib : ℚ) (jit : Nat → ℚ) :
    ∀ (k attempt : Nat), attempt + (k + 1) = mr →
      backoffGo resp mr ib jit (k + 1) attempt
        = ⟨none, (List.range' attempt k).map (fun i => ib * 2 ^ i + jit i), k + 1⟩ := by
  intro k
  induction k with
  | zero =>
      intro attempt h
      have hlt : ¬ (attempt < mr - 1) := by omega
      simp [backoffGo, h429 attempt, hlt, List.range']
  | succ k ih =>
      intro attempt h
      have hlt : attempt < mr - 1 := by omega
      have hrec := ih (attempt + 1) (by omega)
      have e : backoffGo resp mr ib jit (k + 1 + 1) attempt
          = (match resp attempt with
             | HttpResult.success b => ⟨some b, [], 1⟩
             | HttpResult.transportError => ⟨none, [], 1⟩
             | HttpResult.httpError s =>
                 if s = 429 then
                   if attempt < mr - 1 then
                     ⟨(backoffGo resp mr ib jit (k + 1) (attempt + 1)).result,
                      (ib * 2 ^ attempt + jit attempt)
                        :: (backoffGo resp mr ib jit (k + 1) (attempt + 1)).sleeps,
                      (backoffGo resp mr ib jit (k + 1) (attempt + 1)).attempts + 1⟩
                   else ⟨none, [], 1⟩
                 else ⟨none, [], 1⟩) := rfl
      rw [e, h429 attempt, hrec]
      simp [hlt, List.range'_succ]

theorem startsWithL_iff : ∀ (l p : List Char), startsWithL l p = true ↔ ∃ r, l = p ++ r := by
  intro l p
  induction p generalizing l with
  | nil => simp [startsWithL]
  | cons b bs ih =>
      cases l with
      | nil => simp [startsWithL]
      | cons a as =>
          simp only [startsWithL, Bool.and_eq_true, beq_iff_eq, ih]
          constructor
          · rintro ⟨rfl, r, rfl⟩
            exact ⟨r, rfl⟩
          · rintro ⟨r, h⟩
            rw [List.cons_append] at h
            injection h with h1 h2
            exact ⟨h1, r, h2⟩

theorem hasSubstrL_iff : ∀ (hay nd : List Char), hasSubstrL hay nd = true ↔
    ∃ s r, hay = s ++ nd ++ r := by
  intro hay nd
  induction hay with
  | nil =>
      simp only [hasSubstrL, decide_eq_true_eq]
      constructor
      · intro h
        exact ⟨[], [], by simp [h]⟩
      · rintro ⟨s, r, h⟩
        have h2 := List.append_eq_nil.mp h.symm
        have h3 := List.append_eq_nil.mp h2.1
        exact h3.2
  | cons a t ih =>
      simp only [hasSubstrL, Bool.or_eq_true, startsWithL_iff, ih]
      constructor
      · rintro (⟨r, h⟩ | ⟨s, r, h⟩)
        · exact ⟨[], r, by simp [h]⟩
        · exact ⟨a :: s, r, by simp [h]⟩
      · rintro ⟨s, r, h⟩
        cases s with
        | nil =>
            left
            exact ⟨r, by simpa using h⟩
        | cons c s2 =>
            right
            rw [List.cons_append, List.cons_append] at h
            injection h with h1 h2
            exact ⟨s2, r, by simpa using h2⟩

theorem clean_text_eq (l : List Char) : clean_text l = collapseWs (stripControl l) := by
  by_cases h : l = []
  · subst h; rfl
  · unfold clean_text collapseWs splitWs
    rw [if_neg h]
    have hW := splitWsGo_words (stripControl l) [] (by simp)
    unfold pyStrip
    rw [joinSpace_dropWhile _ hW, joinSpace_rev_dropWhile _ hW, List.reverse_reverse]

theorem backoffGo_step {β : Type} (resp : Nat → HttpResult β) (mr : Nat) (ib : ℚ)
    (jit : Nat → ℚ) (r attempt : Nat) :
    backoffGo resp mr ib jit (r + 1) attempt
      = (match resp attempt with
         | HttpResult.success b => ⟨some b, [], 1⟩
         | HttpResult.transportError => ⟨none, [], 1⟩
         | HttpResult.httpError s =>
             if s = 429 then
               if attempt < mr - 1 then
                 ⟨(backoffGo resp mr ib jit r (attempt + 1)).result,
                  (ib * 2 ^ attempt + jit attempt)
                    :: (backoffGo resp mr ib jit r (attempt + 1)).sleeps,
                  (backoffGo resp mr ib jit r (attempt + 1)).attempts + 1⟩
               else ⟨none, [], 1⟩
             else ⟨none, [], 1⟩) := rfl

theorem getLast_map_range' (f : Nat → ℚ) (m : Nat) (hm : 1 ≤ m) :
    ((List.range' 0 m).map f).getLast? = some (f (m - 1)) := by
  rw [List.getLast?_eq_getElem?, List.getElem?_map]
  simp only [List.length_map, List.length_range']
  rw [List.getElem?_range' 0 1 (by omega)]
  simp

/-! ## Claim theorems -/

/-- C1 (counterexample): the text-cleaning pipeline applied before an Output
Record is not the claimed composition
`collapse_whitespace(resolve(strip_hyperlinks(strip_control(text))))`: on the
input `"<https:x>"` the code keeps the hyperlink tag verbatim, while the
claimed composition erases it. -/
theorem c1_counterexample :
    formatCleanPipeline "<https:x>".data [] [] [] ≠
      claimCleanPipeline "<https:x>".data [] [] [] ∧
    formatCleanPipeline "<https:x>".data [] [] [] = some "<https:x>".data ∧
    claimCleanPipeline "<https:x>".data [] [] [] = some [] := by decide

/-- C1 (amended): the cleaning applied to a message before it enters an
Output Record is `collapse_whitespace(strip_control(resolve(text)))`:
mention resolution runs first, then control characters are stripped and
whitespace collapsed; hyperlink tags are not stripped in this pipeline
(`remove_hyperlink` is applied only later, in `process_with_llm`). -/
theorem c1_amended : ∀ (t : List Char) (u c g : Dict),
    formatCleanPipeline t u c g
      = (resolve_names t u c g).map (fun s => collapseWs (stripControl s)) := by
  intro t u c g
  unfold formatCleanPipeline
  cases resolve_names t u c g <;> simp [clean_text_eq]

/-- C2 (counterexample): on a thread whose replies span two pages (root echo
`0` first, replies `1, 2, 3`), `fetch_thread_replies` returns `[1, 3]` — it
drops reply `2` (the first message of the second page), so it does not
exclude exactly one returned item. -/
theorem c2_counterexample :
    (fetch_thread_replies twoPageRepliesApi 10).result = [1, 3] ∧
    (fetch_thread_replies twoPageRepliesApi 10).result ≠ [1, 2, 3] := by decide

/-- C2 (amended): `fetch_thread_replies` appends, from every fetched page,
all of that page's messages except the first one (the `[1:]` slice is applied
per page, not once), truncated to the reply cap. -/
theorem c2_amended : ∀ (α : Type) (api : Option String → Option (ReplyPage α)) (fuel : Nat),
    (fetch_thread_replies api fuel).result
      = (((fetch_thread_replies api fuel).pages.map (fun p => p.messages.tail)).flatten).take
          MAX_MESSAGES_PER_THREAD := by
  intro α api fuel
  unfold fetch_thread_replies
  exact fetchRepliesGo_result_spec api MAX_MESSAGES_PER_THREAD fuel none [] 0

/-- C3 (counterexample): an unfiltered event whose `thread_ts` (`"1.0"`)
differs from its own `ts` (`"2.0"`) but has a positive reply count does
trigger a replies fetch, contradicting the claimed
`thread_ts = ts` condition. -/
theorem c3_counterexample :
    (extract_slack_threads_run strayHistApi (fun _ => [botReply]) none 5).fetchCalls
        = ["2.0"] ∧
    strayReplyMsg.threadTs ≠ some strayReplyMsg.ts := by decide

/-- C3 (amended): the assembler issues the nested replies fetch for an
unfiltered event exactly when the event has a truthy `thread_ts` and a
positive reply count; equality of `thread_ts` with the event's own `ts` is
not required. -/
theorem c3_amended :
    ∀ (api : HistReq → Option HistPage) (rf : String → List HistMsg) (fuel : Nat),
      (extract_slack_threads_run api rf none fuel).fetchCalls
        = ((extract_slack_threads_run api rf none fuel).histMsgs.filter
            (fun m => !rootExcluded (authorOf m) && wantsReplies m)).map (fun m => m.ts) := by
  intro api rf fuel
  obtain ⟨nm, h1, h2⟩ := extractGo_fetch_spec api rf fuel ⟨none, none⟩ [] [] []
  unfold extract_slack_threads_run
  have h1b : (extractGo api rf none fuel ⟨none, none⟩ [] [] []).histMsgs = nm := by
    simpa using h1
  rw [h2, h1b]
  simp

/-- C4 (counterexample): app.py `resolve_names` raises `IndexError` (modelled
as `none`) on the recognized token `<!U123>`, whose group 2 contains no `^`:
the unguarded `group_id.split("^")[1]` has no index 1. -/
theorem c4_counterexample : resolve_names_app "<!U123>".data [] [] [] = none := by decide

/-- C4 (amended): test.py `resolve_names` is total — it never fails on any
text and any directories — and each recognized token is fully replaced by a
sigil-prefixed directory lookup (which falls back to the sigil-prefixed ID on
a miss), while a `<!` token without `^` is left exactly as it appeared.
app.py's variant lacks the `^` guard and fails on such tokens. -/
theorem c4_amended :
    (∀ (t : List Char) (u c g : Dict), (resolve_names t u c g).isSome = true) ∧
    (∀ (u c g : Dict) (run : List Char), run ≠ [] → (∀ ch ∈ run, isIdChar ch = true) →
       resolve_names ('<' :: '@' :: 'U' :: (run ++ ['>'])) u c g
           = some ('@' :: dget u ('U' :: run)) ∧
       resolve_names ('<' :: '#' :: 'C' :: (run ++ ['>'])) u c g
           = some ('#' :: dget c ('C' :: run)) ∧
       resolve_names
           ('<' :: '!' :: 's' :: 'u' :: 'b' :: 't' :: 'e' :: 'a' :: 'm' :: '^' :: 'S'
             :: (run ++ ['>'])) u c g
           = some ('@' :: dget g ('S' :: run)) ∧
       resolve_names ('<' :: '!' :: 'U' :: (run ++ ['>'])) u c g
           = some ('<' :: '!' :: 'U' :: (run ++ ['>']))) := by
  constructor
  · intro t u c g
    exact resolveGo_test_isSome u c g t.length t
  · intro u c g run hne hall
    exact ⟨resolve_names_user u c g run hne hall,
           resolve_names_channel u c g run hne hall,
           resolve_names_group u c g run hne hall,
           resolve_names_bang_unchanged u c g run hne hall⟩

/-- Witness for C4 at the concrete identifier run `123` with empty
directories. -/
theorem c4_witness :
    (('1' :: '2' :: '3' :: ([] : List Char)) ≠ [] ∧
      ∀ ch ∈ ('1' :: '2' :: '3' :: ([] : List Char)), isIdChar ch = true) ∧
    resolve_names ('<' :: '@' :: 'U' :: (('1' :: '2' :: '3' :: []) ++ ['>'])) [] [] []
      = some ('@' :: dget [] ('U' :: ('1' :: '2' :: '3' :: []))) := by
  refine ⟨⟨by decide, by decide⟩, ?_⟩
  exact (c4_amended.2 [] [] [] ('1' :: '2' :: '3' :: []) (by decide) (by decide)).1

/-- C5: under repeated HTTP 429 responses `make_request_with_backoff`
performs exactly `max_retries` GET attempts, sleeps after every attempt but
the last for `initial_backoff * 2 ^ attempt` plus that attempt's jitter in
`[0, 1)`, so its final wait is `initial_backoff * 2 ^ (max_retries - 2)` plus
at most one time-unit of jitter, and returns the failure signal; a non-429
HTTP error or a transport error on the first attempt returns the failure
signal immediately, with one attempt and no sleep. -/
theorem c5_backoff {β : Type} (mr : Nat) (ib : ℚ) (jit : Nat → ℚ)
    (hmr : 1 ≤ mr) (hjit : ∀ i, 0 ≤ jit i ∧ jit i < 1) :
    (∀ resp : Nat → HttpResult β, (∀ i, resp i = HttpResult.httpError 429) →
       (make_request_with_backoff resp mr ib jit).result = none ∧
       (make_request_with_backoff resp mr ib jit).attempts = mr ∧
       (make_request_with_backoff resp mr ib jit).sleeps
           = (List.range (mr - 1)).map (fun i => ib * 2 ^ i + jit i) ∧
       (2 ≤ mr → ∃ j, 0 ≤ j ∧ j < 1 ∧
           (make_request_with_backoff resp mr ib jit).sleeps.getLast?
             = some (ib * 2 ^ (mr - 2) + j))) ∧
    (∀ resp2 : Nat → HttpResult β,
       ((∃ st, st ≠ 429 ∧ resp2 0 = HttpResult.httpError st) ∨
          resp2 0 = HttpResult.transportError) →
       (make_request_with_backoff resp2 mr ib jit).result = none ∧
       (make_request_with_backoff resp2 mr ib jit).attempts = 1 ∧
       (make_request_with_backoff resp2 mr ib jit).sleeps = []) := by
  obtain ⟨m, rfl⟩ : ∃ m, mr = m + 1 := ⟨mr - 1, by omega⟩
  constructor
  · intro resp h429
    have hb := backoffGo_all429 resp h429 (m + 1) ib jit m 0 (by omega)
    unfold make_request_with_backoff
    rw [hb]
    refine ⟨rfl, rfl, ?_, ?_⟩
    · simp [List.range_eq_range']
    · intro h2
      refine ⟨jit (m - 1), (hjit (m - 1)).1, (hjit (m - 1)).2, ?_⟩
      have hg := getLast_map_range' (fun i => ib * 2 ^ i + jit i) m (by omega)
      simp only [BackoffOut.sleeps]
      rw [hg]
      have hm2 : m + 1 - 2 = m - 1 := by omega
      rw [hm2]
  · intro resp2 hbad
    unfold make_request_with_backoff
    rw [backoffGo_step]
    rcases hbad with ⟨st, hst, hresp⟩ | hresp
    · rw [hresp]
      simp [hst]
    · rw [hresp]
      simp

/-- Witness for C5 at `max_retries = 3`, `initial_backoff = 1`, jitter
constantly `1/2`. -/
theorem c5_witness :
    (1 ≤ 3) ∧
    (make_request_with_backoff (β := Nat) (fun _ => HttpResult.httpError 429) 3 1
        (fun _ => (1 : ℚ) / 2)).attempts = 3 ∧
    (make_request_with_backoff (β := Nat) (fun _ => HttpResult.transportError) 3 1
        (fun _ => (1 : ℚ) / 2)).attempts = 1 := by
  refine ⟨by norm_num, ?_, ?_⟩
  · exact ((c5_backoff (β := Nat) 3 1 (fun _ => (1 : ℚ) / 2) (by norm_num)
      (fun i => ⟨by norm_num, by norm_num⟩)).1 (fun _ => HttpResult.httpError 429)
      (fun i => rfl)).2.1
  · exact ((c5_backoff (β := Nat) 3 1 (fun _ => (1 : ℚ) / 2) (by norm_num)
      (fun i => ⟨by norm_num, by norm_num⟩)).2 (fun _ => HttpResult.transportError)
      (Or.inr rfl)).2.1

/-- C6: a history event is excluded from the root stream exactly when its
author identifier equals `"USLACKBOT"` or case-insensitively contains the
substring `"bot"`; the filter is not applied to replies: on a stream with one
bot root and one human root whose thread holds a bot reply, the assembler
produces exactly one thread, rooted at the human message and containing the
bot reply. -/
theorem c6_bot_filter :
    (∀ a : String, rootExcluded a = true ↔
       (a = "USLACKBOT" ∨ ∃ s r, lowerL a.data = s ++ ['b', 'o', 't'] ++ r)) ∧
    (extract_slack_threads_run botFilterHistApi botFilterReplies none 5).threads
        = [[humanRoot, botReply]] ∧
    (extract_slack_threads_run botFilterHistApi botFilterReplies none 5).threads.length
        = 1 := by
  refine ⟨?_, by decide, by decide⟩
  intro a
  simp [rootExcluded, hasSubstrL_iff]

/-- C7 (counterexample): with a replies endpoint yielding 1500 replies in
pages of 100 and the cap of 1000, `fetch_thread_replies` returns 1000 items,
but not the first 1000 replies of the stream: reply 100 (the first message of
the second page) is missing. -/
theorem c7_counterexample :
    (fetch_thread_replies (seqApi capPages) 20).result.length = 1000 ∧
    ¬ (100 ∈ (fetch_thread_replies (seqApi capPages) 20).result) ∧
    (fetch_thread_replies (seqApi capPages) 20).result ≠ List.range' 1 1000 := by decide

/-- C7 (amended): on the 1500-reply synthetic thread the fetch returns
exactly 1000 replies without error and stops paginating at the cap (11 of the
16 pages are requested), but the replies kept are each fetched page's
messages minus that page's first element, not the prefix of the stream. -/
theorem c7_amended :
    (fetch_thread_replies (seqApi capPages) 20).result
        = ((List.range' 1 1099).filter (fun i => decide (i % 100 ≠ 0))).take 1000 ∧
    (fetch_thread_replies (seqApi capPages) 20).result.length = 1000 ∧
    (fetch_thread_replies (seqApi capPages) 20).requests = 11 := by decide

/-- C8 (counterexample): a run that hits a terminal fetch failure on the
second history page still extracts one thread, and the run-descriptor status
computed by `run_extraction_pipeline` is `"success"`, not
`"failed"`/`"partial"`. -/
theorem c8_counterexample :
    (extract_slack_threads_run failingHistApi (fun _ => []) none 5).fetchFailed = true ∧
    (extract_slack_threads_run failingHistApi (fun _ => []) none 5).threads.length = 1 ∧
    pipelineStatus
        (extract_slack_threads_run failingHistApi (fun _ => []) none 5).threads.length
        1 true = "success" := by decide

/-- C8 (amended): the completion status is computed only from the thread
count and the LLM processing outcome — no fetch-failure signal reaches it —
so a run with a non-empty result records `"success"` or `"partial_success"`,
never `"failed"`, regardless of any terminal fetch failure observed. -/
theorem c8_amended : ∀ (threadsCount processedCount : Nat) (llmFlag : Bool),
    0 < threadsCount →
    pipelineStatus threadsCount processedCount llmFlag ≠ "failed" ∧
    (pipelineStatus threadsCount processedCount llmFlag = "success" ∨
      pipelineStatus threadsCount processedCount llmFlag = "partial_success") := by
  intro tc pc f htc
  unfold pipelineStatus
  rw [if_pos htc]
  cases f
  · simp
  · by_cases hp : 0 < pc
    · simp [hp]
    · simp [hp]

/-- Witness for C8 at one extracted thread and no LLM-processed rows. -/
theorem c8_witness :
    (0 < 1) ∧
    (pipelineStatus 1 0 true = "success" ∨ pipelineStatus 1 0 true = "partial_success") :=
  ⟨by decide, (c8_amended 1 0 true (by decide)).2⟩

/-- C9 (counterexample): `extract_slack_threads` invoked with an invalid end
date (`"2024-02-31"`) performs the three directory fetches before the date is
parsed: the network actions precede the `ValueError`, contradicting the
claimed fail-fast-before-network behavior. -/
theorem c9_counterexample :
    extractActions (some "tok") (some "2024-01-01") (some "2024-02-31")
      = ([NetAction.netUsers, NetAction.netChannels, NetAction.netGroups], false) := by decide

/-- C9 (amended): the app.py route rejects a missing parameter or a bad date
format with a 400 before any network activity, but test.py's
`extract_slack_threads` always issues the three directory fetches first —
date validation happens only after that network activity, and the token is
never validated at all (the trace does not depend on it). -/
theorem c9_amended :
    (∀ (c s e : Option String), appRouteActions none c s e = ([], some AppErr.missingParam)) ∧
    (∀ (t c s e : Option String),
       truthyS t = true → truthyS c = true → truthyS s = true → truthyS e = true →
       (strptimeYMD (s.getD "") = none ∨ strptimeYMD (e.getD "") = none) →
       appRouteActions t c s e = ([], some AppErr.badDate)) ∧
    (∀ (tok startDate endDate : Option String),
       (extractActions tok startDate endDate).1.take 3
           = [NetAction.netUsers, NetAction.netChannels, NetAction.netGroups] ∧
       ∀ tok2, extractActions tok startDate endDate = extractActions tok2 startDate endDate) := by
  refine ⟨?_, ?_, ?_⟩
  · intro c s e
    simp [appRouteActions, truthyS]
  · intro t c s e ht hc hs he hbad
    unfold appRouteActions
    rw [ht, hc, hs, he]
    simp only [Bool.and_true, if_true]
    rcases hbad with hb | hb
    · rw [hb]
    · rw [hb]
      cases hps : strptimeYMD (s.getD "") <;> simp
  · intro tok startDate endDate
    constructor
    · unfold extractActions
      by_cases hs : truthyS startDate = true
      · rw [if_pos hs]
        cases hps : strptimeYMD (startDate.getD "") with
        | none => simp
        | some d =>
            by_cases he : truthyS endDate = true
            · rw [if_pos he]
              cases hpe : strptimeYMD (endDate.getD "") with
              | none => simp
              | some d2 => simp
            · rw [if_neg he]
              simp
      · rw [if_neg hs]
        by_cases he : truthyS endDate = true
        · rw [if_pos he]
          cases hpe : strptimeYMD (endDate.getD "") with
          | none => simp
          | some d2 => simp
        · rw [if_neg he]
          simp
    · intro tok2
      rfl

/-- Witness for C9 at a present token/channel, a valid start date and the
invalid end date `"2024-13-45"`. -/
theorem c9_witness :
    (truthyS (some "tok") = true ∧ strptimeYMD "2024-13-45" = none) ∧
    appRouteActions (some "tok") (some "C1") (some "2024-01-01") (some "2024-13-45")
      = ([], some AppErr.badDate) := by
  refine ⟨⟨by decide, by decide⟩, ?_⟩
  exact c9_amended.2.1 (some "tok") (some "C1") (some "2024-01-01") (some "2024-13-45")
    (by decide) (by decide) (by decide) (by decide) (Or.inr (by decide))

/-- C10: for the same end-date string, test.py sets the history upper bound
`latest` to midnight of the end date plus one day while app.py sets it to
midnight of the end date itself, so the two implementations request different
history windows (they are not extensionally equal). -/
theorem c10_latest_bounds : ∀ (s : String) (d : Int), strptimeYMD s = some d →
    testLatest s = some ((d + 1) * 86400) ∧
    appLatest s = some (d * 86400) ∧
    testLatest s ≠ appLatest s := by
  intro s d h
  unfold testLatest appLatest unix_timestamp
  rw [h]
  refine ⟨rfl, rfl, ?_⟩
  intro he
  simp only [Option.map_some'] at he
  have h2 := Option.some.inj he
  omega

/-- Witness for C10 at the end date `"2024-11-30"` (epoch day 20057). -/
theorem c10_witness :
    strptimeYMD "2024-11-30" = some 20057 ∧
    testLatest "2024-11-30" ≠ appLatest "2024-11-30" :=
  ⟨by decide, (c10_latest_bounds "2024-11-30" 20057 (by decide)).2.2⟩
